import Mathlib

/-!
Verification of the AutoDocMind repository insight engine against its
natural-language specification.

The Python sources are shallowly embedded: Python `int`/`float` values are
modelled by `PyNum` (a tagged integer-or-rational value, idealising IEEE
floats as exact rationals), raised exceptions by `Except PyErr`, and Python
`dict`s (which preserve insertion order) by ordered association lists.
-/

namespace AutoDocMind

/-- Exceptions raised by the embedded code.  `runtimeError` models CPython's
`RuntimeError: dictionary changed size during iteration`, `typeError` the
`TypeError` raised when a call supplies the wrong number of positional
arguments (or a `None` object is called), `zeroDivisionError` division by
zero, and `valueError` carries the message of a raised `ValueError`. -/
inductive PyErr where
  | runtimeError
  | typeError
  | zeroDivisionError
  | valueError (msg : String)
  | analysisError (msg : String)
deriving DecidableEq

instance {ε α : Type} [DecidableEq ε] [DecidableEq α] : DecidableEq (Except ε α) := fun x y =>
  match x, y with
  | .ok a, .ok b =>
      if h : a = b then .isTrue (h ▸ rfl) else .isFalse (fun he => h (Except.ok.inj he))
  | .error a, .error b =>
      if h : a = b then .isTrue (h ▸ rfl) else .isFalse (fun he => h (Except.error.inj he))
  | .ok _, .error _ => .isFalse Except.noConfusion
  | .error _, .ok _ => .isFalse Except.noConfusion

/-- A Python numeric value as returned by `src/tools/nums.py`: either an
`int` or a `float`.  Floats are idealised as exact rationals. -/
inductive PyNum where
  | int (z : ℤ)
  | float (q : ℚ)
deriving DecidableEq

/-- The numeric value carried by a `PyNum`. -/
def PyNum.val : PyNum → ℚ
  | .int z => (z : ℚ)
  | .float q => q

/-- Round half to even (the rule of Python's `round`) of the exact fraction
`n / d`, for `d > 0`: `f = ⌊n / d⌋`, and the fractional part `n/d - f`
compares with `1/2` as `2 * (n - f * d)` compares with `d`. -/
def halfEvenDiv (n d : ℤ) : ℤ :=
  let f := n.fdiv d
  let r2 := 2 * (n - f * d)
  if r2 < d then f
  else if d < r2 then f + 1
  else if f % 2 = 0 then f else f + 1

/-- Python's `round(q, factor)` on the idealised exact rational value:
round `q * 10 ^ factor` half to even and scale back.  Implemented on the
numerator and denominator so that it evaluates by kernel reduction. -/
def roundTo (q : ℚ) (factor : ℕ) : ℚ :=
  mkRat (halfEvenDiv (q.num * 10 ^ factor) (q.den : ℤ)) (10 ^ factor)

/-- Function `percentage` from `src/tools/nums.py`: returns `0.0` (a float) when
`total == 0`, otherwise rounds `(part / total) * 100` — the exact fraction
`(part * 100) / total` — to `factor` decimals and collapses the result to an
`int` when it is a whole number (`num.is_integer()` is modelled by the
rational having denominator 1). -/
def percentage (part total : ℤ) (factor : ℕ := 2) : PyNum :=
  if total = 0 then .float 0
  else
    let num := roundTo (Rat.divInt (part * 100) total) factor
    if num.den = 1 then .int num.num else .float num

/-- Function `average` from `src/tools/nums.py`: `sum(elements) / len(elements)` with
the same integer-collapse rule.  On the empty list the division
`sum([]) / 0` raises `ZeroDivisionError`; the spec names this condition its
empty-input error. -/
def average (elements : List ℚ) : Except PyErr PyNum :=
  if elements = [] then .error .zeroDivisionError
  else
    let num := elements.sum / (elements.length : ℚ)
    .ok (if num.den = 1 then .int num.num else .float num)

/-- One entry of a traceback as produced by `traceback.extract_tb`:
`(filename, line, funcname, text)`. -/
structure TraceFrame where
  filename : String
  line : ℕ
  funcname : String
  text : String
deriving DecidableEq

/-- Check whether `needle` occurs at the head of `hay` (used to embed
Python's `in` substring test). -/
def charsLead : List Char → List Char → Bool
  | [], _ => true
  | _ :: _, [] => false
  | n :: ns, h :: hs => n = h && charsLead ns hs

/-- Check whether `needle` occurs anywhere inside `hay` (Python's
`needle in hay` on strings). -/
def charsHas (needle : List Char) : List Char → Bool
  | [] => charsLead needle []
  | h :: hs => charsLead needle (h :: hs) || charsHas needle hs

/-- Python's `sub in s` substring containment on strings. -/
def strHas (sub s : String) : Bool :=
  charsHas sub.toList s.toList

/-- Function `error_trace` from `helpers/trace.py`: filters out traceback frames
whose filename contains `Lib\site-packages` and returns the log line that
would be emitted on the logger (the log sink is modelled by the returned
string). -/
def error_trace (indicator : String) (tb : List TraceFrame) (errorMsg : String) : String :=
  let filtered := tb.filter (fun f => ¬ strHas "Lib\\site-packages" f.filename)
  match filtered.getLast? with
  | none => indicator ++ ": " ++ errorMsg ++ " - No relevant traceback found"
  | some f =>
      indicator ++ ": " ++ errorMsg ++ " in " ++ f.text ++ " on " ++ f.funcname ++
        ", file " ++ f.filename ++ " in line " ++ toString f.line

/-- The call at `src/execute.py:51` is `error_trace(tb, logger, error)`:
three positional arguments passed to the four-parameter
`error_trace(indicator, tb, logger, error)`.  Python raises `TypeError`
(missing required positional argument) before the body of `error_trace`
runs, so the call site itself is an erroring computation. -/
def error_trace_call_3args : Except PyErr String :=
  .error .typeError

/-- A value the dynamic dispatch of `execute` can resolve to.  After
`from src.analyzers import *` the globals of `src/execute.py` bind
`analyze_python` (the per-file analyzer, `analyzer f`) and also
`analyze_modules` (the three-parameter metrics aggregator
`analyze_modules(modules, repository, framework)` from
`src/analyzers/modules.py`, whose `__all__` exports it): resolving the
latter yields a callable whose single-positional-argument call
`method(file)` raises `TypeError` before its body runs (`aggregator`). -/
inductive Dispatch (α β : Type) where
  | analyzer (f : α → Except PyErr β)
  | aggregator

/-- The dynamic analyzer dispatch at `src/execute.py:42`:
`globals().get('analyze_' + framework)`.  The name `analyze_python`
resolves the per-file analyzer, `analyze_modules` resolves the metrics
aggregator, and any other name yields `None`, modelled as `none`. -/
def analyzeLookup {α β : Type} (analyze_python : α → Except PyErr β)
    (framework : String) : Option (Dispatch α β) :=
  if "analyze_" ++ framework = "analyze_python" then some (.analyzer analyze_python)
  else if "analyze_" ++ framework = "analyze_modules" then some .aggregator
  else none

/-- The per-file loop of `execute` (`src/execute.py:44-51`): each file is
analyzed inside `try`; `method(file)` with `method = None` raises
`TypeError` inside the `try`, and so does calling the three-parameter
`analyze_modules` with a single positional argument; any exception from
the body is caught and the handler runs `error_trace(tb, logger, error)` —
whose mis-arity call raises `TypeError`, which propagates out of the
handler. -/
def executeLoop {α β : Type} (method : Option (Dispatch α β)) :
    List α → List β → Except PyErr (List β)
  | [], modules => .ok modules
  | file :: files, modules =>
    let attempt : Except PyErr β :=
      match method with
      | none => .error .typeError
      | some .aggregator => .error .typeError
      | some (.analyzer analyze) => analyze file
    match attempt with
    | .ok m => executeLoop method files (modules ++ [m])
    | .error _ =>
      match error_trace_call_3args with
      | .ok _ => executeLoop method files modules
      | .error e => .error e

/-- Function `execute` from `src/execute.py`, restricted to its decision logic: look
up `analyze_<framework>` dynamically, then run the per-file loop.  The list
of successfully analyzed modules (handed on to the report generators) is
returned as the observable result. -/
def execute {α β : Type} (analyze_python : α → Except PyErr β)
    (framework : String) (files : List α) : Except PyErr (List β) :=
  executeLoop (analyzeLookup analyze_python framework) files []

/-- A module as consumed by `src/generators/graphic.py`: its physical path
and its raw import references. -/
structure PModule where
  path : String
  imports : List String
deriving DecidableEq

/-- A value of the `_paths` dictionary: a set of implementing paths for a
C# namespace (set modelled as an insertion-ordered duplicate-free list), or
the single path of a Python module. -/
inductive PathVal where
  | ps (paths : List String)
  | p (path : String)
deriving DecidableEq

/-- Ordered-dictionary lookup on an association list (first match, mirroring
the unique-key invariant of a Python `dict`). -/
def alGet {β : Type} : List (String × β) → String → Option β
  | [], _ => none
  | (k, v) :: rest, key => if k = key then some v else alGet rest key

/-- Ordered-dictionary `d[k] = v`: update in place if present, else append
(Python dicts preserve insertion order). -/
def alSet {β : Type} : List (String × β) → String → β → List (String × β)
  | [], key, val => [(key, val)]
  | (k, v) :: rest, key, val =>
      if k = key then (k, val) :: rest else (k, v) :: alSet rest key val

/-- Ordered-dictionary `d.setdefault(k, v)`: insert only when absent. -/
def alSetD {β : Type} (al : List (String × β)) (key : String) (val : β) :
    List (String × β) :=
  if (alGet al key).isSome then al else al ++ [(key, val)]

/-- Step `dct.setdefault(ns, set()).add(path)` from the C# branch of `_paths`:
get-or-create the namespace's path set and add `path` to it. -/
def nsAdd (dct : List (String × PathVal)) (ns path : String) : List (String × PathVal) :=
  match alGet dct ns with
  | some (.ps l) => alSet dct ns (.ps (if path ∈ l then l else l ++ [path]))
  | some (.p _) => dct
  | none => dct ++ [(ns, .ps [path])]

/-- Drop the final extension of the last path component, after
`PurePath.with_suffix('')`: remove everything from the last dot of the last
component, unless that dot is its first character. -/
def dropLastSuffix (s : String) : String :=
  let comps := s.splitOn "/"
  let name := (comps.getLast?).getD ""
  let idxs := (List.range name.length).filter (fun i => name.toList.getD i ' ' = '.')
  match idxs.getLast? with
  | none => s
  | some 0 => s
  | some i =>
      String.intercalate "/" (comps.dropLast ++ [⟨name.toList.take i⟩])

/-- The logical module name in the Python branch of `_paths`
(`src/generators/graphic.py:125-126`): the repository-relative path (the
filesystem resolution `Path(p).resolve().relative_to(root)` is supplied as
the function `rel`), with its extension removed and `/` replaced by `.`. -/
def pyModuleName (rel : String → String) (path : String) : String :=
  ⟨(dropLastSuffix (rel path)).toList.map (fun c => if c = '/' then '.' else c)⟩

/-- Body of the `_paths` loop of `src/generators/graphic.py:118-129`: per
module, branch on the framework; an unsupported framework raises
`ValueError` naming it. -/
def pathsLoop (rel : String → String) (framework : String) :
    List PModule → List (String × PathVal) → Except PyErr (List (String × PathVal))
  | [], dct => .ok dct
  | module :: rest, dct =>
    if framework = "csharp" then
      let dct := module.imports.foldl
        (fun d imp =>
          if imp.startsWith "__ns__:" then nsAdd d (imp.drop 7) module.path else d)
        dct
      pathsLoop rel framework rest dct
    else if framework = "python" then
      pathsLoop rel framework rest
        (alSet dct (pyModuleName rel module.path) (.p module.path))
    else
      .error (.valueError
        ("Check the execution parameters, the " ++ framework ++
          " framework is not currently supported"))

/-- Function `_paths` from `src/generators/graphic.py`: resolves each module's
logical identity per framework, or raises `ValueError` for an unsupported
framework value. -/
def _paths (rel : String → String) (modules : List PModule) (framework : String) :
    Except PyErr (List (String × PathVal)) :=
  pathsLoop rel framework modules []

/-- Python's `str` of a `float` whose value has at most two decimal places
(every float built by `percentage` with the default precision): the shortest
round-tripping decimal form, e.g. `9.5`, `33.33`, `0.07`, `0.0`.  Values
outside that shape cannot arise from `percentage` and fall back to the raw
rational rendering. -/
def floatStr (q : ℚ) : String :=
  if (100 : ℤ) % (q.den : ℤ) = 0 then
    let n := q.num * ((100 : ℤ) / (q.den : ℤ))
    let sign := if n < 0 then "-" else ""
    let m := n.natAbs
    let ip := m / 100
    let fr := m % 100
    if fr = 0 then sign ++ toString ip ++ ".0"
    else if fr % 10 = 0 then sign ++ toString ip ++ "." ++ toString (fr / 10)
    else if fr < 10 then sign ++ toString ip ++ ".0" ++ toString fr
    else sign ++ toString ip ++ "." ++ toString fr
  else toString q

/-- Python's `str` on the `int`-or-`float` result of `percentage`, as used
by the f-string `f'{sloc_percent}%'`. -/
def pyStr : PyNum → String
  | .int z => toString z
  | .float q => floatStr q

/-- Python's `<` on strings, on the underlying character lists:
lexicographic comparison by Unicode code point, a proper prefix being
smaller. -/
def charsPyLt : List Char → List Char → Bool
  | [], [] => false
  | [], _ :: _ => true
  | _ :: _, [] => false
  | a :: as, b :: bs =>
      if a.toNat < b.toNat then true
      else if b.toNat < a.toNat then false
      else charsPyLt as bs

/-- Python's `<` on strings. -/
def strPyLt (a b : String) : Bool :=
  charsPyLt a.toList b.toList

theorem charsPyLt_irrefl : ∀ a, charsPyLt a a = false
  | [] => rfl
  | _ :: as => by simp [charsPyLt, charsPyLt_irrefl as]

theorem charsPyLt_trans : ∀ {a b c}, charsPyLt a b = true → charsPyLt b c = true →
    charsPyLt a c = true
  | [], [], _, h, _ => by simp [charsPyLt] at h
  | [], _ :: _, [], _, h => by simp [charsPyLt] at h
  | [], _ :: _, _ :: _, _, _ => rfl
  | _ :: _, [], _, h, _ => by simp [charsPyLt] at h
  | _ :: _, _ :: _, [], _, h => by simp [charsPyLt] at h
  | a :: as, b :: bs, c :: cs, hab, hbc => by
      simp only [charsPyLt] at hab hbc ⊢
      rcases Nat.lt_trichotomy a.toNat b.toNat with h₁ | h₁ | h₁
      · rcases Nat.lt_trichotomy b.toNat c.toNat with h₂ | h₂ | h₂
        · simp [Nat.lt_trans h₁ h₂]
        · have h : a.toNat < c.toNat := by omega
          simp [h]
        · simp [Nat.lt_asymm h₂, h₂] at hbc
      · rcases Nat.lt_trichotomy b.toNat c.toNat with h₂ | h₂ | h₂
        · have h : a.toNat < c.toNat := by omega
          simp [h]
        · have h : a.toNat = c.toNat := h₁.trans h₂
          simp only [h₁, Nat.lt_irrefl, if_false, ite_self] at hab
          simp only [h₂, Nat.lt_irrefl, if_false, ite_self] at hbc
          simp [h, Nat.lt_irrefl, charsPyLt_trans hab hbc]
        · simp [Nat.lt_asymm h₂, h₂] at hbc
      · simp [Nat.lt_asymm h₁, h₁] at hab

theorem charsPyLt_eq_of_not : ∀ {a b}, charsPyLt a b = false → charsPyLt b a = false → a = b
  | [], [], _, _ => rfl
  | [], _ :: _, h, _ => by simp [charsPyLt] at h
  | _ :: _, [], _, h => by simp [charsPyLt] at h
  | a :: as, b :: bs, hab, hba => by
      simp only [charsPyLt] at hab hba
      rcases Nat.lt_trichotomy a.toNat b.toNat with h₁ | h₁ | h₁
      · simp [h₁] at hab
      · have ha : a = b := Char.eq_of_val_eq (UInt32.ext h₁)
        subst ha
        simp only [Nat.lt_irrefl, if_false, ite_self] at hab hba
        rw [charsPyLt_eq_of_not hab hba]
      · simp [Nat.lt_asymm h₁, h₁] at hba

theorem strPyLt_irrefl (a : String) : strPyLt a a = false :=
  charsPyLt_irrefl _

theorem strPyLt_trans {a b c : String} (h₁ : strPyLt a b = true) (h₂ : strPyLt b c = true) :
    strPyLt a c = true :=
  charsPyLt_trans h₁ h₂

theorem strPyLt_eq_of_not {a b : String} (h₁ : strPyLt a b = false)
    (h₂ : strPyLt b a = false) : a = b := by
  have h := charsPyLt_eq_of_not h₁ h₂
  cases a
  cases b
  exact congrArg String.mk (by simpa [String.toList] using h)

/-- One row of `module_stats` as consumed by the insight helpers of
`src/generators/report.py` (keys `name`, `sloc`, `n_methods`,
`total_items`, `documented_items`). -/
structure MStat where
  name : String
  sloc : ℕ
  n_methods : ℕ
  total_items : ℕ
  documented_items : ℕ
deriving DecidableEq

/-- One hotspot candidate dictionary built by `_hotspots`
(`src/generators/report.py:233-238`); `percent` is the *rendered string*
`f'{sloc_percent}%'`. -/
structure Hotspot where
  name : String
  sloc : ℕ
  percent : String
  comment : String
deriving DecidableEq

/-- Python's `≤` on the sort key of `_hotspots`
(`src/generators/report.py:242`): the tuple
`(candidate['percent'], candidate['sloc'])` whose first component is the
percent *string*, compared lexicographically, strings by code point. -/
def hotKeyLe (x y : String × ℕ) : Bool :=
  strPyLt x.1 y.1 || (x.1 == y.1 && decide (x.2 ≤ y.2))

/-- Relation by which `a` may precede `b` in the descending hotspot order: `b`'s key is at
most `a`'s.  A stable sort with this relation is exactly Python's
`sorted(..., key=..., reverse=True)`. -/
def hotLe (a b : Hotspot) : Prop :=
  hotKeyLe (b.percent, b.sloc) (a.percent, a.sloc) = true

instance : DecidableRel hotLe := fun _ _ =>
  inferInstanceAs (Decidable (_ = true))

instance : IsTotal Hotspot hotLe := by
  constructor
  intro a b
  simp only [hotLe, hotKeyLe, Bool.or_eq_true, Bool.and_eq_true, beq_iff_eq,
    decide_eq_true_eq]
  by_cases h₁ : strPyLt b.percent a.percent = true
  · exact Or.inl (Or.inl h₁)
  · by_cases h₂ : strPyLt a.percent b.percent = true
    · exact Or.inr (Or.inl h₂)
    · have he : a.percent = b.percent :=
        strPyLt_eq_of_not (Bool.eq_false_iff.mpr h₂) (Bool.eq_false_iff.mpr h₁)
      rcases Nat.le_total b.sloc a.sloc with hs | hs
      · exact Or.inl (Or.inr ⟨he.symm, hs⟩)
      · exact Or.inr (Or.inr ⟨he, hs⟩)

instance : IsTrans Hotspot hotLe := by
  constructor
  intro a b c hab hbc
  simp only [hotLe, hotKeyLe, Bool.or_eq_true, Bool.and_eq_true, beq_iff_eq,
    decide_eq_true_eq] at hab hbc ⊢
  rcases hab with h₁ | ⟨h₁, hs₁⟩ <;> rcases hbc with h₂ | ⟨h₂, hs₂⟩
  · exact Or.inl (strPyLt_trans h₂ h₁)
  · exact Or.inl (h₂ ▸ h₁)
  · exact Or.inl (h₁ ▸ h₂)
  · exact Or.inr ⟨h₂.trans h₁, hs₂.trans hs₁⟩

/-- Function `_hotspots` from `src/generators/report.py:197-244`: collect, per module
with nonzero sloc, the list of triggered reasons, keep the modules with at
least one reason, and stably sort the candidates in descending order of the
tuple `(percent string, sloc)`. -/
def _hotspots (sloc : ℕ) (module_stats : List MStat) : List Hotspot :=
  if sloc = 0 then []
  else
    let candidates := module_stats.filterMap fun stats =>
      if stats.sloc = 0 then none
      else
        let sloc_percent := percentage stats.sloc sloc
        let doc_percent :=
          if stats.total_items ≠ 0 then
            percentage stats.documented_items stats.total_items
          else PyNum.int 0
        let reasons :=
          (if sloc_percent.val ≥ 20 then ["Very large module (≥ 20% of total SLOC)."]
           else if sloc_percent.val ≥ 10 then ["Relevant module by size (≥ 10% of total SLOC)."]
           else [])
          ++ (if 15 ≤ stats.n_methods then ["Many methods (potentially high complexity)."] else [])
          ++ (if stats.total_items ≠ 0 ∧ doc_percent.val ≤ 50 then ["Low documentation coverage (≤ 50%)."]
              else [])
        if reasons = [] then none
        else some ⟨stats.name, stats.sloc, pyStr sloc_percent ++ "%",
                   String.intercalate "\n" reasons⟩
    List.insertionSort hotLe candidates

/-- One entry of the `notes` list built by `_complexity_notes`; each
constructor stands for the f-string of the corresponding `notes.append`,
carrying every datum interpolated into the prose. -/
inductive Note where
  | stats (n_modules avg_sloc : ℕ) (avg_methods : ℚ)
  | large (count : ℕ) (names : List String)
  | concentration (top_count : ℕ) (names : List String) (percent : ℚ)
  | manyMethods (names : List String)
deriving DecidableEq

/-- Relation by which `a` may precede `b` when sorting module stats by `sloc` descending
(`sorted(..., key=lambda m: int(m['sloc']), reverse=True)`). -/
def slocGe (a b : MStat) : Prop :=
  b.sloc ≤ a.sloc

instance : DecidableRel slocGe := fun a b =>
  inferInstanceAs (Decidable (b.sloc ≤ a.sloc))

instance : IsTotal MStat slocGe :=
  ⟨fun a b => (le_total b.sloc a.sloc).imp id id⟩

instance : IsTrans MStat slocGe :=
  ⟨fun _ _ _ hab hbc => le_trans hbc hab⟩

/-- Function `_complexity_notes` from `src/generators/report.py:246-321`.
`int(sloc / n_modules)` and `int(n_modules * 0.2)` truncate a nonnegative
float quotient, i.e. compute `⌊sloc / n⌋` and `⌊n / 5⌋` (the float
evaluation of `n * 0.2` never crosses an integer boundary for any feasible
module count, so Nat division is exact). -/
def _complexity_notes (sloc : ℕ) (module_stats : List MStat) (limit : ℕ := 10) : List Note :=
  if sloc = 0 ∨ module_stats = [] then []
  else
    let n_modules := module_stats.length
    let avg_sloc := sloc / n_modules
    let total_methods := (module_stats.map (·.n_methods)).sum
    let avg_methods : ℚ := (total_methods : ℚ) / (n_modules : ℚ)
    let note1 : List Note := [.stats n_modules avg_sloc avg_methods]
    let large_modules := module_stats.filter (fun m => decide (1000 ≤ m.sloc))
    let notes2 : List Note :=
      if large_modules = [] then []
      else [.large large_modules.length ((large_modules.take limit).map (·.name))]
    let sorted_by_sloc := List.insertionSort slocGe module_stats
    let top_count := max 1 (n_modules / 5)
    let top_modules := sorted_by_sloc.take top_count
    let sloc_top := (top_modules.map (·.sloc)).sum
    let sloc_top_percent := percentage sloc_top sloc
    let notes3 : List Note :=
      if sloc_top_percent.val ≥ 50 then
        [.concentration top_count ((top_modules.take limit).map (·.name)) sloc_top_percent.val]
      else []
    let heavy := module_stats.filter (fun m => decide (30 ≤ m.n_methods))
    let notes4 : List Note :=
      if heavy = [] then []
      else [.manyMethods ((heavy.take limit).map (·.name))]
    (note1 ++ notes2 ++ notes3 ++ notes4).take limit

/-- Select the concentration notes of a note list. -/
def isConcentration : Note → Bool
  | .concentration _ _ _ => true
  | _ => false

/-- Dictionary increment `d[k] += 1` on the first matching key. -/
def alBump : List (String × ℕ) → String → List (String × ℕ)
  | [], _ => []
  | (k, v) :: rest, key =>
      if k = key then (k, v + 1) :: rest else (k, v) :: alBump rest key

/-- Lookup `d.get(k, 0)` on a degree dictionary. -/
def getDeg (al : List (String × ℕ)) (k : String) : ℕ :=
  (alGet al k).getD 0

/-- The mutable state of the in-degree loop of `_dependencies`
(`src/generators/report.py:418-427`): the two degree dictionaries, the
(caller-owned, mutated in place) dependency map, and whether `dep_map`'s
size has changed since its `items()` iterator was created. -/
structure DegState where
  inDeg : List (String × ℕ)
  outDeg : List (String × ℕ)
  depMap : List (String × List String)
  mutated : Bool
deriving DecidableEq

/-- Processing of one destination `dst` (`src/generators/report.py:420-427`):
bump its in-degree when present, otherwise add it to `in_degree`,
`out_degree` and — crucially — to `dep_map`, whose size change is recorded. -/
def procDst (st : DegState) (dst : String) : DegState :=
  if (alGet st.inDeg dst).isSome then { st with inDeg := alBump st.inDeg dst }
  else
    { inDeg := st.inDeg ++ [(dst, 1)]
      outDeg := alSetD st.outDeg dst 0
      depMap := alSetD st.depMap dst []
      mutated := true }

/-- Processing of one dictionary entry: the inner `for dst in targets`. -/
def procEntry (st : DegState) (targets : List String) : DegState :=
  targets.foldl procDst st

/-- The outer `for _, targets in dep_map.items()` loop.  CPython's dict
iterator compares the dict's current size against the size at iterator
creation on every `__next__` call (including the final one that would end
the loop) and raises `RuntimeError: dictionary changed size during
iteration` on mismatch — so once an entry has grown `dep_map` the very next
step raises. -/
def degLoop : List (String × List String) → DegState → Except PyErr DegState
  | [], st => if st.mutated then .error .runtimeError else .ok st
  | e :: es, st =>
      if st.mutated then .error .runtimeError
      else degLoop es (procEntry st e.2)

/-- The dictionary returned by `_dependencies`, together with the
intermediate degree tables, module universe and independent-module list the
function computes (exposed as fields so the graph invariants can be
stated); `interconnected` stands for which density sentence the summary
receives. -/
structure DepResult where
  inDeg : List (String × ℕ)
  outDeg : List (String × ℕ)
  allModules : List String
  independent : List String
  independent_modules : ℕ
  totalEdges : ℕ
  avg_dependencies : ℚ
  core_modules : List String
  dense : ℕ
  interconnected : Bool
deriving DecidableEq, Inhabited

/-- Python's `≤` on the centrality sort key (`src/generators/report.py:455`):
the tuple `(in+out, in, out)` compared lexicographically. -/
def natTripleLe (x y : ℕ × ℕ × ℕ) : Bool :=
  decide (x.1 < y.1) ||
    (decide (x.1 = y.1) &&
      (decide (x.2.1 < y.2.1) || (decide (x.2.1 = y.2.1) && decide (x.2.2 ≤ y.2.2))))

/-- Relation by which `a` may precede `b` in the descending centrality order. -/
def centGe (a b : String × ℕ × ℕ × ℕ) : Prop :=
  natTripleLe b.2 a.2 = true

instance : DecidableRel centGe := fun _ _ =>
  inferInstanceAs (Decidable (_ = true))

instance : IsTotal (String × ℕ × ℕ × ℕ) centGe := by
  constructor
  intro a b
  simp only [centGe, natTripleLe, Bool.or_eq_true, Bool.and_eq_true, decide_eq_true_eq]
  omega

instance : IsTrans (String × ℕ × ℕ × ℕ) centGe := by
  constructor
  intro a b c hab hbc
  simp only [centGe, natTripleLe, Bool.or_eq_true, Bool.and_eq_true,
    decide_eq_true_eq] at hab hbc ⊢
  omega

/-- Relation by which `a` may precede `b` in Python's ascending string sort `sorted(...)`:
`b` is not strictly smaller than `a`. -/
def strAsc (a b : String) : Prop :=
  strPyLt b a = false

instance : DecidableRel strAsc := fun _ _ =>
  inferInstanceAs (Decidable (_ = false))

instance : IsTotal String strAsc := by
  constructor
  intro a b
  simp only [strAsc]
  by_cases h₁ : strPyLt b a = true
  · right
    by_cases h₂ : strPyLt a b = true
    · have := strPyLt_trans h₁ h₂
      rw [strPyLt_irrefl] at this
      exact absurd this (by simp)
    · exact Bool.eq_false_iff.mpr h₂
  · exact Or.inl (Bool.eq_false_iff.mpr h₁)

instance : IsTrans String strAsc := by
  constructor
  intro a b c hab hbc
  simp only [strAsc] at hab hbc ⊢
  by_cases hca : strPyLt c a = true
  · by_cases hA : strPyLt a b = true
    · have := strPyLt_trans hca hA
      rw [hbc] at this
      exact absurd this (by simp)
    · have he : a = b := strPyLt_eq_of_not (Bool.eq_false_iff.mpr hA) hab
      rw [he] at hca
      rw [hbc] at hca
      exact absurd hca (by simp)
  · exact Bool.eq_false_iff.mpr hca

/-- Function `_dependencies` from `src/generators/report.py:393-506`.  The
repository argument only feeds the display-name computation
`Path(module).resolve().relative_to(Path(repository).resolve()).name`,
supplied here as the function `rel`.  The caller's (possibly mutated)
`dep_map` is returned alongside the result dictionary.
`int(0.2 * num_modules)` truncates a nonnegative float, computed exactly as
`num_modules / 5` in `ℕ`. -/
def _dependencies (rel : String → String) (dep_map : List (String × List String))
    (limit : ℕ := 5) (factor : ℕ := 2) :
    Except PyErr (DepResult × List (String × List String)) :=
  if dep_map = [] then
    .ok ({ inDeg := [], outDeg := [], allModules := [], independent := []
           independent_modules := 0, totalEdges := 0, avg_dependencies := 0
           core_modules := [], dense := 0, interconnected := false }, dep_map)
  else
    let modules := dep_map.map Prod.fst
    let outDeg0 := modules.map (fun m => (m, ((alGet dep_map m).getD []).length))
    let inDeg0 := modules.map (fun m => (m, 0))
    match degLoop dep_map ⟨inDeg0, outDeg0, dep_map, false⟩ with
    | .error e => .error e
    | .ok st =>
      let all_modules :=
        List.insertionSort strAsc ((st.outDeg.map Prod.fst ++ st.inDeg.map Prod.fst).dedup)
      let num_modules := all_modules.length
      let independent := all_modules.filter
        (fun m => decide (getDeg st.outDeg m = 0 ∧ getDeg st.inDeg m = 0))
      let total_edges := (all_modules.map (fun m => getDeg st.outDeg m)).sum
      let avg : ℚ := if num_modules = 0 then 0 else Rat.divInt (total_edges : ℤ) (num_modules : ℤ)
      let avg_dep : ℚ := if avg.den = 1 then avg else roundTo avg factor
      let centrality := all_modules.map
        (fun m => (m, getDeg st.inDeg m + getDeg st.outDeg m, getDeg st.inDeg m,
                   getDeg st.outDeg m))
      let sortedCent := List.insertionSort centGe centrality
      let core_modules :=
        ((sortedCent.take limit).filter
          (fun c => decide (0 < getDeg st.inDeg c.1 + getDeg st.outDeg c.1))).map
          (fun c => rel c.1)
      let dense := (all_modules.filter (fun m => decide (5 ≤ getDeg st.outDeg m))).length
      let interconnected := decide (max 1 (num_modules / 5) ≤ dense)
      .ok ({ inDeg := st.inDeg, outDeg := st.outDeg, allModules := all_modules
             independent := independent, independent_modules := independent.length
             totalEdges := total_edges, avg_dependencies := avg_dep
             core_modules := core_modules, dense := dense
             interconnected := interconnected }, st.depMap)

/-- The module-identity universe named by the spec: all map keys together
with all referenced targets. -/
def depUniverse (dep_map : List (String × List String)) : List String :=
  dep_map.map Prod.fst ++ (dep_map.map Prod.snd).flatten

/-- The total number of `(source, target)` dependency edges of a map. -/
def edgeCount (dep_map : List (String × List String)) : ℕ :=
  (dep_map.map (·.2.length)).sum

/-- A statement of a parsed Python module as classified by
`src/analyzers/python.py`: `ast.FunctionDef`, `ast.AsyncFunctionDef` (a
distinct class, *not* a subclass of `FunctionDef`), `ast.ClassDef`, or any
other statement kind (imports, assignments, expressions, ...), identified by
its class name.  `doc` models `ast.get_docstring(node)`. -/
inductive PyStmt where
  | functionDef (name : String) (lineno : ℕ) (doc : Option String) (body : List PyStmt)
  | asyncFunctionDef (name : String) (lineno : ℕ) (doc : Option String) (body : List PyStmt)
  | classDef (name : String) (lineno : ℕ) (doc : Option String) (body : List PyStmt)
  | other (kind : String) (lineno : ℕ)

/-- Record `FunctionInfo` from `src/models/structures`. -/
structure FunctionInfo where
  name : String
  lineno : ℕ
  doc : Option String
deriving DecidableEq

/-- Record `ClassInfo` from `src/models/structures`. -/
structure ClassInfo where
  name : String
  lineno : ℕ
  doc : Option String
  methods : List FunctionInfo
deriving DecidableEq

/-- Record `ModuleInfo` from `src/models/structures` as populated by
`analyze_python`. -/
structure ModuleInfo where
  path : String
  doc : Option String
  functions : List FunctionInfo
  classes : List ClassInfo
deriving DecidableEq

/-- The Python class name of a statement (`type(node).__name__`). -/
def nodeKind : PyStmt → String
  | .functionDef .. => "FunctionDef"
  | .asyncFunctionDef .. => "AsyncFunctionDef"
  | .classDef .. => "ClassDef"
  | .other k _ => k

/-- The line number of a statement. -/
def nodeLine : PyStmt → ℕ
  | .functionDef _ l _ _ => l
  | .asyncFunctionDef _ l _ _ => l
  | .classDef _ l _ _ => l
  | .other _ l => l

/-- One `logger.warning("Unexpected node ...")` emission of
`analyze_python` (`src/analyzers/python.py:82-94`), identified by the
offending node's class name and line. -/
structure Warn where
  kind : String
  lineno : ℕ
deriving DecidableEq

/-- The inner `for sub in node.body` loop of `analyze_python`
(`src/analyzers/python.py:73-79`): collect the class's direct
`ast.FunctionDef` children as methods. -/
def methodsLoop : List PyStmt → List FunctionInfo → List FunctionInfo
  | [], acc => acc
  | .functionDef n l d _ :: rest, acc => methodsLoop rest (acc ++ [⟨n, l, d⟩])
  | _ :: rest, acc => methodsLoop rest acc

/-- The outer `for node in tree.body` loop of `analyze_python`
(`src/analyzers/python.py:57-94`): direct `FunctionDef`s become functions,
`ClassDef`s become classes with their direct `FunctionDef` children as
methods, and every other node (including `AsyncFunctionDef`) falls to the
warning branch, whose `try/except` around `ast.dump` makes it total. -/
def analyzeLoop : List PyStmt → List FunctionInfo → List ClassInfo → List Warn →
    List FunctionInfo × List ClassInfo × List Warn
  | [], fs, cs, ws => (fs, cs, ws)
  | .functionDef n l d _ :: rest, fs, cs, ws =>
      analyzeLoop rest (fs ++ [⟨n, l, d⟩]) cs ws
  | .classDef n l d body :: rest, fs, cs, ws =>
      analyzeLoop rest fs (cs ++ [⟨n, l, d, methodsLoop body []⟩]) ws
  | node :: rest, fs, cs, ws =>
      analyzeLoop rest fs cs (ws ++ [⟨nodeKind node, nodeLine node⟩])

/-- Function `analyze_python` from `src/analyzers/python.py`, from the parsed tree
onward (`path.read_text` and `ast.parse` precede it; `doc` is the module
docstring).  Total: it returns the `ModuleInfo` and the list of emitted
warnings for every tree. -/
def analyze_python (path : String) (doc : Option String) (body : List PyStmt) :
    ModuleInfo × List Warn :=
  let r := analyzeLoop body [] [] []
  (⟨path, doc, r.1, r.2.1⟩, r.2.2)

/-- Specification-side projection: the `FunctionInfo` of a statement that
counts as a (top-level or method) function — exactly a `FunctionDef`. -/
def funInfoOf : PyStmt → Option FunctionInfo
  | .functionDef n l d _ => some ⟨n, l, d⟩
  | _ => none

/-- Specification-side projection: the `ClassInfo` of a direct `ClassDef`,
with its direct `FunctionDef` children as methods. -/
def classInfoOf : PyStmt → Option ClassInfo
  | .classDef n l d body => some ⟨n, l, d, body.filterMap funInfoOf⟩
  | _ => none

/-- Specification-side projection: the warning a statement produces — one
for every node that is neither a `FunctionDef` nor a `ClassDef`. -/
def warnOf : PyStmt → Option Warn
  | .functionDef .. => none
  | .classDef .. => none
  | node => some ⟨nodeKind node, nodeLine node⟩

/-- The demonstration DependencyMap for the dependency-summary witnesses:
two modules importing each other, so every referenced target is a key and
the computation returns. -/
def depDemoMap : List (String × List String) := [("A", ["B"]), ("B", ["A"])]

/-- The result of the dependency-summary computation on `depDemoMap`. -/
def depDemoRun : DepResult × List (String × List String) :=
  ((_dependencies (fun s => s) depDemoMap).toOption).getD default

theorem strAppend_left_cancel {s t₁ t₂ : String} (h : s ++ t₁ = s ++ t₂) : t₁ = t₂ := by
  cases s with
  | mk d =>
    cases t₁ with
    | mk d₁ =>
      cases t₂ with
      | mk d₂ =>
        have hd : d ++ d₁ = d ++ d₂ := by
          have := congrArg String.data h
          simpa [String.data] using this
        exact congrArg String.mk (List.append_cancel_left hd)

theorem rat_intCast_of_den_eq_one {q : ℚ} (h : q.den = 1) : (q.num : ℚ) = q := by
  conv_rhs => rw [← Rat.num_div_den q]
  rw [h]
  simp

/-- C8: `percentage(p, 0) == 0` for every `p`; `percentage(0, t) == 0` and
`percentage(t, t) == 100` for every `t > 0`; and for `t ≠ 0` the result is
the `int` with the value of `100*p/t` rounded to 2 decimals when that
rounded value has no fractional part, else that rounded value as a float. -/
theorem percentage_spec :
    (∀ p : ℤ, (percentage p 0).val = 0) ∧
    (∀ t : ℤ, 0 < t → (percentage 0 t).val = 0) ∧
    (∀ t : ℤ, 0 < t → (percentage t t).val = 100) ∧
    (∀ p t : ℤ, t ≠ 0 →
      (((roundTo (100 * (p : ℚ) / (t : ℚ)) 2).den = 1 →
          percentage p t = .int (roundTo (100 * (p : ℚ) / (t : ℚ)) 2).num) ∧
        ((roundTo (100 * (p : ℚ) / (t : ℚ)) 2).den ≠ 1 →
          percentage p t = .float (roundTo (100 * (p : ℚ) / (t : ℚ)) 2)))) := by
  have key : ∀ p t : ℤ, t ≠ 0 →
      Rat.divInt (p * 100) t = 100 * (p : ℚ) / (t : ℚ) := by
    intro p t _
    rw [Rat.divInt_eq_div]
    push_cast
    ring
  refine ⟨fun p => rfl, ?_, ?_, ?_⟩
  · intro t ht
    have ht' : t ≠ 0 := ne_of_gt ht
    simp only [percentage, if_neg ht', key 0 t ht']
    norm_num [roundTo, halfEvenDiv, PyNum.val]
  · intro t ht
    have ht' : t ≠ 0 := ne_of_gt ht
    have h100 : 100 * (t : ℚ) / (t : ℚ) = 100 := by
      field_simp
    simp only [percentage, if_neg ht', key t t ht', h100]
    norm_num [roundTo, halfEvenDiv, PyNum.val]
  · intro p t ht
    constructor
    · intro hden
      simp only [percentage, if_neg ht, key p t ht, hden, if_pos]
    · intro hden
      simp only [percentage, if_neg ht, key p t ht, if_neg hden]

/-- C8 witness: the four parts of `percentage_spec` evaluated at concrete
inputs. -/
theorem percentage_spec_witness :
    (percentage 5 0).val = 0 ∧ (percentage 0 7).val = 0 ∧ (percentage 7 7).val = 100 ∧
      percentage 1 3 = .float (roundTo (100 * (1 : ℚ) / 3) 2) := by
  have hd : (roundTo (100 * ((1 : ℤ) : ℚ) / ((3 : ℤ) : ℚ)) 2).den ≠ 1 := by
    have h : 100 * ((1 : ℤ) : ℚ) / ((3 : ℤ) : ℚ) = mkRat 100 3 := by
      rw [Rat.mkRat_eq_div]
      push_cast
      ring
    rw [h]
    decide
  refine ⟨percentage_spec.1 5, percentage_spec.2.1 7 (by norm_num),
    percentage_spec.2.2.1 7 (by norm_num), ?_⟩
  have h4 := (percentage_spec.2.2.2 1 3 (by norm_num)).2 hd
  simpa using h4

/-- C9: `average([x]) == x` for every numeric `x`, and `average([])` raises
the (division-by-zero) empty-input error rather than silently returning 0
or NaN. -/
theorem average_spec :
    (∀ x : ℚ, (average [x]).map PyNum.val = .ok x) ∧
    average [] = .error .zeroDivisionError := by
  refine ⟨fun x => ?_, rfl⟩
  have hne : ([x] : List ℚ) ≠ [] := by simp
  simp only [average, if_neg hne, List.sum_cons, List.sum_nil, add_zero,
    List.length_cons, List.length_nil, Nat.cast_one, Nat.cast_zero, zero_add, div_one]
  by_cases h : x.den = 1
  · simp [h, Except.map, PyNum.val, rat_intCast_of_den_eq_one h]
  · simp [h, Except.map, PyNum.val]

/-- C1: evaluating the dependency-summary computation on the map
`{"A": {"B"}}`, whose referenced target `"B"` is not a key.  Instead of
growing the map and completing, the in-degree loop mutates `dep_map` while
iterating `dep_map.items()` and the next iterator step raises
`RuntimeError: dictionary changed size during iteration`. -/
theorem dependencies_sink_raises :
    _dependencies (fun s => s) [("A", ["B"])] = .error .runtimeError := by decide

/-- C3: evaluating the per-file execute loop where the first file's
analysis raises.  The `except` handler calls the four-parameter
`error_trace` with three arguments, so the handler itself raises
`TypeError` and the run aborts instead of continuing with the remaining
files (the claimed behavior would yield `.ok ["good.py"]`). -/
theorem execute_perfile_failure_aborts :
    execute
      (fun f : String => if f = "bad.py" then .error (.analysisError "invalid syntax") else .ok f)
      "python" ["bad.py", "good.py"] = .error .typeError := by decide

/-- C4 counterexample: with the unsupported framework value `"java"` and no
modules/files, neither the dependency graph builder's identity resolution
nor the analyzer dispatch fails: `_paths` returns an empty map, the dynamic
lookup silently resolves to `None`, and `execute` completes without any
error — the claimed immediate configuration failure does not happen. -/
theorem unsupported_framework_silent :
    _paths (fun s => s) [] "java" = .ok [] ∧
    (analyzeLookup (fun f : String => Except.ok f) "java").isNone = true ∧
    execute (fun f : String => Except.ok f) "java" [] = .ok [] :=
  ⟨by decide, by rfl, by decide⟩

/-- C4 (amended): an unsupported framework raises `ValueError` naming the
framework inside `_paths`, but only once at least one module is iterated;
the analyzer dispatch never fails fast with a named configuration error —
for every framework other than `"python"` and `"modules"` the lookup
silently yields `None`, for `"modules"` it silently resolves the
three-parameter aggregator whose per-file call also just raises
`TypeError`, a run with no candidate files completes without any error,
and a run with files aborts with the handler's `TypeError`. -/
theorem unsupported_framework_behavior (rel : String → String) (framework : String)
    (modules : List PModule) (h1 : framework ≠ "csharp") (h2 : framework ≠ "python")
    (h3 : modules ≠ []) :
    _paths rel modules framework =
      .error (.valueError ("Check the execution parameters, the " ++ framework ++
        " framework is not currently supported")) ∧
    (∀ (α β : Type) (analyze : α → Except PyErr β),
      (framework ≠ "modules" → analyzeLookup analyze framework = none) ∧
      (framework = "modules" →
        analyzeLookup analyze framework = some Dispatch.aggregator) ∧
      execute analyze framework [] = .ok [] ∧
      ∀ (file : α) (files : List α),
        execute analyze framework (file :: files) = .error .typeError) := by
  have hlook : ("analyze_" ++ framework : String) ≠ "analyze_python" := by
    intro h
    have h' : ("analyze_" : String) ++ framework = "analyze_" ++ "python" := by
      rw [h]
      rfl
    exact h2 (strAppend_left_cancel h')
  constructor
  · cases modules with
    | nil => exact absurd rfl h3
    | cons m rest =>
      simp [_paths, pathsLoop, h1, h2]
  · intro α β analyze
    by_cases hm : framework = "modules"
    · subst hm
      have hl : analyzeLookup analyze "modules" = some Dispatch.aggregator := by
        simp [analyzeLookup]
      refine ⟨fun hne => absurd rfl hne, fun _ => hl, ?_, ?_⟩
      · simp [execute, hl, executeLoop]
      · intro file files
        simp [execute, hl, executeLoop, error_trace_call_3args]
    · have hlookm : ("analyze_" ++ framework : String) ≠ "analyze_modules" := by
        intro h
        have h' : ("analyze_" : String) ++ framework = "analyze_" ++ "modules" := by
          rw [h]
          rfl
        exact hm (strAppend_left_cancel h')
      have hl : analyzeLookup analyze framework = none := by
        simp [analyzeLookup, hlook, hlookm]
      refine ⟨fun _ => hl, fun he => absurd he hm, ?_, ?_⟩
      · simp [execute, hl, executeLoop]
      · intro file files
        simp [execute, hl, executeLoop, error_trace_call_3args]

/-- C4 witness: `unsupported_framework_behavior` applied to the framework
`"java"` (lookup `None`) and to the framework `"modules"` (lookup resolves
the aggregator), each with one module and string files. -/
theorem unsupported_framework_behavior_witness :
    _paths (fun s => s) [⟨"a.py", []⟩] "java" =
      .error (.valueError
        "Check the execution parameters, the java framework is not currently supported") ∧
    analyzeLookup (fun f : String => Except.ok f) "java" = none ∧
    execute (fun f : String => Except.ok f) "java" ([] : List String) = .ok [] ∧
    execute (fun f : String => Except.ok f) "java" ["x.py"] = .error .typeError ∧
    analyzeLookup (fun f : String => Except.ok f) "modules" = some Dispatch.aggregator ∧
    execute (fun f : String => Except.ok f) "modules" ["x.py"] = .error .typeError := by
  obtain ⟨hp, hd⟩ := unsupported_framework_behavior (fun s => s) "java" [⟨"a.py", []⟩]
    (by decide) (by decide) (by simp)
  obtain ⟨hl, -, he, hf⟩ := hd String String (fun f => Except.ok f)
  obtain ⟨-, hd2⟩ := unsupported_framework_behavior (fun s => s) "modules" [⟨"a.py", []⟩]
    (by decide) (by decide) (by simp)
  obtain ⟨-, hl2, -, hf2⟩ := hd2 String String (fun f => Except.ok f)
  refine ⟨?_, hl (by decide), he, hf "x.py" [], hl2 rfl, hf2 "x.py" []⟩
  rw [hp]
  decide

/-- C2 counterexample: with total sloc 100 and hotspot modules `X`
(sloc 10, share 10) and `Y` (sloc 9, share 9, 15 methods), the produced
hotspot order is `Y` before `X` — the module with the *smaller* share of
total SLOC comes first, because the sort key compares the rendered percent
strings (`"9%" > "10%"` by code point), not the numbers. -/
theorem hotspots_numeric_order_fails :
    ((_hotspots 100 [⟨"X", 10, 0, 0, 0⟩, ⟨"Y", 9, 15, 0, 0⟩]).map
      (fun h => (h.name, (percentage h.sloc 100).val)) = [("Y", 9), ("X", 10)]) ∧
    (9 : ℚ) < 10 :=
  ⟨by decide, by norm_num⟩

/-- C2 (amended): the hotspot list is sorted in descending lexicographic
order of the pair (rendered percent string, sloc) — string comparison by
code point, ties by greater sloc, stable beyond that; for modules A
(sloc 800, fully documented, 5 methods) and B (sloc 200, undocumented,
20 methods) with total sloc 1000 this still puts A ("80%") before
B ("20%"). -/
theorem hotspots_sorted :
    (∀ (sloc : ℕ) (stats : List MStat), (_hotspots sloc stats).Sorted hotLe) ∧
    (_hotspots 1000 [⟨"A", 800, 5, 10, 10⟩, ⟨"B", 200, 20, 10, 0⟩]).map Hotspot.name
      = ["A", "B"] := by
  constructor
  · intro sloc stats
    rw [_hotspots]
    split
    · exact List.sorted_nil
    · exact List.sorted_insertionSort hotLe _
  · decide

theorem notes_take_eq (n1 : Note) (l2 l3 l4 : List Note) (h2 : l2.length ≤ 1)
    (h3 : l3.length ≤ 1) (h4 : l4.length ≤ 1) :
    ([n1] ++ l2 ++ l3 ++ l4).take 10 = [n1] ++ l2 ++ l3 ++ l4 := by
  apply List.take_of_length_le
  simp only [List.length_append, List.length_cons, List.length_nil]
  omega

/-- C7 (amended): with nonzero total sloc and a nonempty stats list, the
concentration note of `_complexity_notes` (default limit) is emitted
exactly when the top `max(1, ⌊20% of module count⌋)` modules by sloc
(descending) hold a rounded share of at least 50% of total sloc, naming
those modules; the group size uses the *floor* of 20%, with minimum 1, not
the ceiling. -/
theorem complexity_concentration_rule (sloc : ℕ) (stats : List MStat)
    (h1 : sloc ≠ 0) (h2 : stats ≠ []) :
    (_complexity_notes sloc stats).filter isConcentration =
      (if 50 ≤ (percentage (((List.insertionSort slocGe stats).take
            (max 1 (stats.length / 5))).map (·.sloc)).sum sloc).val then
        [Note.concentration (max 1 (stats.length / 5))
          ((((List.insertionSort slocGe stats).take (max 1 (stats.length / 5))).take 10).map
            (·.name))
          (percentage (((List.insertionSort slocGe stats).take
            (max 1 (stats.length / 5))).map (·.sloc)).sum sloc).val]
      else []) := by
  have hcond : ¬ (sloc = 0 ∨ stats = []) := not_or.mpr ⟨h1, h2⟩
  rw [_complexity_notes, if_neg hcond]
  rw [notes_take_eq]
  · simp only [List.filter_append]
    by_cases hL : stats.filter (fun m => decide (1000 ≤ m.sloc)) = [] <;>
      by_cases hH : stats.filter (fun m => decide (30 ≤ m.n_methods)) = [] <;>
      split_ifs with hC <;>
      simp [hL, hH, hC, isConcentration]
  · split <;> simp
  · split <;> simp
  · split <;> simp

/-- C7 counterexample: six modules with slocs 30, 30, 10, 10, 10, 10 and
total sloc 100.  The top `ceil(20% of 6) = 2` modules hold 60% ≥ 50% of the
sloc, so the claim demands a concentration note, but the code takes only
`max(1, int(6 * 0.2)) = 1` top module (30% < 50%) and emits none. -/
theorem complexity_concentration_ceil_fails :
    (_complexity_notes 100 [⟨"m1", 30, 0, 0, 0⟩, ⟨"m2", 30, 0, 0, 0⟩, ⟨"m3", 10, 0, 0, 0⟩,
        ⟨"m4", 10, 0, 0, 0⟩, ⟨"m5", 10, 0, 0, 0⟩, ⟨"m6", 10, 0, 0, 0⟩]).filter
        isConcentration = [] ∧
    ⌈(6 : ℚ) * (20 / 100)⌉ = 2 ∧
    50 ≤ (percentage (((List.insertionSort slocGe
        [⟨"m1", 30, 0, 0, 0⟩, ⟨"m2", 30, 0, 0, 0⟩, ⟨"m3", 10, 0, 0, 0⟩, ⟨"m4", 10, 0, 0, 0⟩,
          ⟨"m5", 10, 0, 0, 0⟩, ⟨"m6", 10, 0, 0, 0⟩]).take 2).map (·.sloc)).sum 100).val :=
  ⟨by decide, by rw [Int.ceil_eq_iff]; norm_num, by decide⟩

/-- C7 witness: `complexity_concentration_rule` applied to a single module
holding all 100 sloc: the group is that one module and the note is
emitted naming it with a 100% share. -/
theorem complexity_concentration_rule_witness :
    (_complexity_notes 100 [⟨"M", 100, 0, 0, 0⟩]).filter isConcentration =
      [Note.concentration 1 ["M"] 100] :=
  (complexity_concentration_rule 100 [⟨"M", 100, 0, 0, 0⟩] (by decide) (by simp)).trans
    (by decide)

theorem methodsLoop_eq (body : List PyStmt) (acc : List FunctionInfo) :
    methodsLoop body acc = acc ++ body.filterMap funInfoOf := by
  induction body generalizing acc with
  | nil => simp [methodsLoop]
  | cons s rest ih => cases s <;> simp [methodsLoop, funInfoOf, ih]

theorem analyzeLoop_eq (body : List PyStmt) (fs : List FunctionInfo) (cs : List ClassInfo)
    (ws : List Warn) :
    analyzeLoop body fs cs ws =
      (fs ++ body.filterMap funInfoOf, cs ++ body.filterMap classInfoOf,
        ws ++ body.filterMap warnOf) := by
  induction body generalizing fs cs ws with
  | nil => simp [analyzeLoop]
  | cons s rest ih =>
      cases s <;>
        simp [analyzeLoop, funInfoOf, classInfoOf, warnOf, nodeKind, nodeLine, ih,
          methodsLoop_eq]

/-- C10: on every parsed module body, `analyze_python` returns the
`ModuleInfo` (it never fails on unexpected node kinds) whose functions are
exactly the `FunctionDef` statements directly in the module body, whose
classes collect as methods exactly the `FunctionDef` statements directly in
their class body — `AsyncFunctionDef` and definitions nested inside other
functions are excluded — while every other top-level statement only
contributes a logged warning. -/
theorem analyze_python_spec (path : String) (doc : Option String) (body : List PyStmt) :
    analyze_python path doc body =
      (⟨path, doc, body.filterMap funInfoOf, body.filterMap classInfoOf⟩,
        body.filterMap warnOf) := by
  simp [analyze_python, analyzeLoop_eq]

theorem alGet_isSome_iff {β : Type} (al : List (String × β)) (k : String) :
    (alGet al k).isSome = true ↔ k ∈ al.map Prod.fst := by
  induction al with
  | nil => simp [alGet]
  | cons e rest ih =>
      obtain ⟨k', v⟩ := e
      by_cases h : k' = k
      · simp [alGet, h]
      · rw [List.map_cons]
        simp only [alGet, if_neg h, ih, List.mem_cons]
        exact ⟨fun hm => Or.inr hm, fun hm => hm.resolve_left (fun he => h he.symm)⟩

theorem alBump_keys (al : List (String × ℕ)) (k : String) :
    (alBump al k).map Prod.fst = al.map Prod.fst := by
  induction al with
  | nil => rfl
  | cons e rest ih =>
      obtain ⟨k', v⟩ := e
      by_cases h : k' = k <;> simp [alBump, h, ih]

theorem alBump_sum (al : List (String × ℕ)) (k : String) (h : k ∈ al.map Prod.fst) :
    ((alBump al k).map Prod.snd).sum = (al.map Prod.snd).sum + 1 := by
  induction al with
  | nil => simp at h
  | cons e rest ih =>
      obtain ⟨k', v⟩ := e
      by_cases hk : k' = k
      · simp only [alBump, if_pos hk, List.map_cons, List.sum_cons]
        omega
      · have hmem : k ∈ rest.map Prod.fst := by
          rw [List.map_cons, List.mem_cons] at h
          exact h.resolve_left (fun he => hk he.symm)
        simp only [alBump, if_neg hk, List.map_cons, List.sum_cons, ih hmem]
        omega

theorem procDst_mutated_mono (st : DegState) (d : String)
    (h : (procDst st d).mutated = false) : st.mutated = false := by
  unfold procDst at h
  split at h
  · exact h
  · simp at h

theorem procEntry_mutated_mono (st : DegState) (ts : List String)
    (h : (procEntry st ts).mutated = false) : st.mutated = false := by
  induction ts generalizing st with
  | nil => exact h
  | cons d ds ih =>
      have h1 : (procDst st d).mutated = false := ih (procDst st d) h
      exact procDst_mutated_mono st d h1

theorem procEntry_ok (ts : List String) (st : DegState)
    (h : (procEntry st ts).mutated = false) :
    (procEntry st ts).depMap = st.depMap ∧
    (procEntry st ts).outDeg = st.outDeg ∧
    (procEntry st ts).inDeg.map Prod.fst = st.inDeg.map Prod.fst ∧
    ((procEntry st ts).inDeg.map Prod.snd).sum = (st.inDeg.map Prod.snd).sum + ts.length ∧
    (∀ d ∈ ts, d ∈ st.inDeg.map Prod.fst) := by
  induction ts generalizing st with
  | nil => simp [procEntry]
  | cons d ds ih =>
      have hstep : procEntry st (d :: ds) = procEntry (procDst st d) ds := rfl
      rw [hstep] at h ⊢
      have hmut : (procDst st d).mutated = false := procEntry_mutated_mono _ _ h
      have hsome : (alGet st.inDeg d).isSome = true := by
        unfold procDst at hmut
        split at hmut
        · assumption
        · simp at hmut
      have hpd : procDst st d = { st with inDeg := alBump st.inDeg d } := by
        unfold procDst
        rw [if_pos hsome]
      have ha : (procDst st d).inDeg = alBump st.inDeg d := by rw [hpd]
      have hb : (procDst st d).outDeg = st.outDeg := by rw [hpd]
      have hc : (procDst st d).depMap = st.depMap := by rw [hpd]
      have hdm : d ∈ st.inDeg.map Prod.fst := (alGet_isSome_iff _ _).mp hsome
      obtain ⟨ih1, ih2, ih3, ih4, ih5⟩ := ih (procDst st d) h
      refine ⟨ih1.trans hc, ih2.trans hb, ?_, ?_, ?_⟩
      · rw [ih3, ha, alBump_keys]
      · rw [ih4, ha, alBump_sum st.inDeg d hdm]
        simp only [List.length_cons]
        omega
      · intro x hx
        rcases List.mem_cons.mp hx with hx | hx
        · exact hx ▸ hdm
        · have := ih5 x hx
          rw [ha, alBump_keys] at this
          exact this

theorem degLoop_ok (es : List (String × List String)) (st st' : DegState)
    (h : degLoop es st = .ok st') :
    st.mutated = false ∧
    st'.depMap = st.depMap ∧
    st'.outDeg = st.outDeg ∧
    st'.inDeg.map Prod.fst = st.inDeg.map Prod.fst ∧
    ((st'.inDeg.map Prod.snd).sum
      = (st.inDeg.map Prod.snd).sum + (es.map (·.2.length)).sum) ∧
    (∀ e ∈ es, ∀ d ∈ e.2, d ∈ st.inDeg.map Prod.fst) := by
  induction es generalizing st with
  | nil =>
      unfold degLoop at h
      split at h
      · exact absurd h (by simp)
      · obtain rfl : st = st' := by injection h
        simp_all
  | cons e rest ih =>
      unfold degLoop at h
      split at h
      · exact absurd h (by simp)
      · next hmut =>
        have hmut' : st.mutated = false := by
          revert hmut
          cases st.mutated <;> simp
        obtain ⟨ihm, ih1, ih2, ih3, ih4, ih5⟩ := ih (procEntry st e.2) h
        obtain ⟨p1, p2, p3, p4, p5⟩ := procEntry_ok e.2 st ihm
        refine ⟨hmut', ih1.trans p1, ih2.trans p2, ih3.trans p3, ?_, ?_⟩
        · rw [ih4, p4]
          simp
          omega
        · intro ee hee d hd
          rcases List.mem_cons.mp hee with hee | hee
          · exact p5 d (hee ▸ hd)
          · have := ih5 ee hee d hd
            rwa [p3] at this

/-- C5: whenever the dependency-summary computation returns (rather than
raising), the DependencyMap it was given is unchanged: no key was added and
no value set modified. -/
theorem dependencies_preserves_map (rel : String → String)
    (dep_map : List (String × List String)) (limit factor : ℕ) (r : DepResult)
    (fm : List (String × List String))
    (h : _dependencies rel dep_map limit factor = .ok (r, fm)) : fm = dep_map := by
  by_cases hempty : dep_map = []
  · subst hempty
    have hrfl : _dependencies rel [] limit factor =
        .ok ({ inDeg := [], outDeg := [], allModules := [], independent := []
               independent_modules := 0, totalEdges := 0, avg_dependencies := 0
               core_modules := [], dense := 0, interconnected := false }, []) := rfl
    rw [hrfl] at h
    injection h with hp
    injection hp with h1 h2
    exact h2.symm
  · rw [_dependencies, if_neg hempty] at h
    dsimp only at h
    split at h
    · exact absurd h (by simp)
    · next st hdeg =>
        simp only [Except.ok.injEq, Prod.mk.injEq] at h
        have hdm := (degLoop_ok dep_map _ st hdeg).2.1
        rw [← h.2, hdm]

/-- C5 witness: `dependencies_preserves_map` applied to `depDemoMap`. -/
theorem dependencies_preserves_map_witness : depDemoRun.2 = depDemoMap :=
  dependencies_preserves_map (fun s => s) depDemoMap 5 2 depDemoRun.1 depDemoRun.2 (by decide)

theorem alGet_of_mem_nodup {β : Type} (al : List (String × β))
    (hnd : (al.map Prod.fst).Nodup) :
    ∀ e ∈ al, alGet al e.1 = some e.2 := by
  induction al with
  | nil => intro e he; simp at he
  | cons p rest ih =>
      obtain ⟨k, v⟩ := p
      rw [List.map_cons, List.nodup_cons] at hnd
      intro e he
      rcases List.mem_cons.mp he with he | he
      · subst he
        simp [alGet]
      · have hne : k ≠ e.1 := by
          intro hk
          apply hnd.1
          rw [hk]
          exact List.mem_map.mpr ⟨e, he, rfl⟩
        simp only [alGet, if_neg hne]
        exact ih hnd.2 e he

theorem alGet_map_self {β : Type} (ms : List String) (f : String → β) (hnd : ms.Nodup) :
    ∀ x ∈ ms, alGet (ms.map (fun m => (m, f m))) x = some (f x) := by
  intro x hx
  have hkeys : ((ms.map (fun m => (m, f m))).map Prod.fst) = ms := by
    simp [List.map_map, Function.comp_def]
  have := alGet_of_mem_nodup (ms.map (fun m => (m, f m))) (by rw [hkeys]; exact hnd)
    (x, f x) (List.mem_map_of_mem _ hx)
  simpa using this

theorem sum_getDeg_keys (al : List (String × ℕ)) (hnd : (al.map Prod.fst).Nodup) :
    ((al.map Prod.fst).map (fun k => getDeg al k)).sum = (al.map Prod.snd).sum := by
  induction al with
  | nil => simp
  | cons p rest ih =>
      obtain ⟨k, v⟩ := p
      rw [List.map_cons, List.nodup_cons] at hnd
      have hhead : getDeg ((k, v) :: rest) k = v := by simp [getDeg, alGet]
      have htail : (rest.map Prod.fst).map (fun x => getDeg ((k, v) :: rest) x)
          = (rest.map Prod.fst).map (fun x => getDeg rest x) := by
        apply List.map_congr_left
        intro x hx
        have hne : k ≠ x := fun hk => hnd.1 (hk ▸ hx)
        simp [getDeg, alGet, hne]
      simp only [List.map_cons, List.sum_cons, hhead, htail, ih hnd.2]

/-- C6: whenever the dependency-summary computation returns statistics for
a DependencyMap (with the unique keys of a Python dict), the
independent-module list lies inside the module universe (keys together
with referenced targets), every independent module has in-degree 0 and
out-degree 0, and the out-degree total, the in-degree total and the
reported edge total all equal the number of dependency edges of the map. -/
theorem dependencies_graph_invariants (rel : String → String)
    (dep_map : List (String × List String)) (limit factor : ℕ) (r : DepResult)
    (fm : List (String × List String)) (hnd : (dep_map.map Prod.fst).Nodup)
    (h : _dependencies rel dep_map limit factor = .ok (r, fm)) :
    (∀ x ∈ r.independent, x ∈ depUniverse dep_map) ∧
    (∀ x ∈ r.independent, getDeg r.outDeg x = 0 ∧ getDeg r.inDeg x = 0) ∧
    (r.allModules.map (fun m => getDeg r.outDeg m)).sum = edgeCount dep_map ∧
    (r.allModules.map (fun m => getDeg r.inDeg m)).sum = edgeCount dep_map ∧
    r.totalEdges = edgeCount dep_map := by
  by_cases hempty : dep_map = []
  · subst hempty
    have hrfl : _dependencies rel [] limit factor =
        .ok ({ inDeg := [], outDeg := [], allModules := [], independent := []
               independent_modules := 0, totalEdges := 0, avg_dependencies := 0
               core_modules := [], dense := 0, interconnected := false }, []) := rfl
    rw [hrfl] at h
    injection h with hp
    injection hp with h1 h2
    subst h1
    simp [edgeCount]
  · rw [_dependencies, if_neg hempty] at h
    dsimp only at h
    split at h
    · exact absurd h (by simp)
    · next st hdeg =>
        simp only [Except.ok.injEq, Prod.mk.injEq] at h
        obtain ⟨hrec, hfm⟩ := h
        subst hrec
        obtain ⟨hm0, hdm, hout, hkeys, hsum, htAll⟩ := degLoop_ok dep_map _ st hdeg
        dsimp only at hout hkeys hsum
        have hinkeys : st.inDeg.map Prod.fst = dep_map.map Prod.fst := by
          rw [hkeys]
          simp [List.map_map, Function.comp_def]
        have houtkeys : st.outDeg.map Prod.fst = dep_map.map Prod.fst := by
          rw [hout]
          simp [List.map_map, Function.comp_def]
        have hperm : List.Perm
            (List.insertionSort strAsc
              ((st.outDeg.map Prod.fst ++ st.inDeg.map Prod.fst).dedup))
            (dep_map.map Prod.fst) := by
          refine (List.perm_insertionSort strAsc _).trans ?_
          refine (List.perm_ext_iff_of_nodup (List.nodup_dedup _) hnd).mpr ?_
          intro a
          rw [List.mem_dedup, List.mem_append, hinkeys, houtkeys, or_self]
        have hmemAll : ∀ x, x ∈ List.insertionSort strAsc
            ((st.outDeg.map Prod.fst ++ st.inDeg.map Prod.fst).dedup) ↔
            x ∈ dep_map.map Prod.fst := fun x => hperm.mem_iff
        -- the out-degree dictionary gives each key the length of its target set
        have houtval : ∀ x ∈ dep_map.map Prod.fst,
            getDeg st.outDeg x = ((alGet dep_map x).getD []).length := by
          intro x hx
          rw [hout]
          unfold getDeg
          rw [alGet_map_self (dep_map.map Prod.fst)
            (fun m => ((alGet dep_map m).getD []).length) hnd x hx]
          rfl
        -- total of the out-degrees over the key list
        have houtsum : ((dep_map.map Prod.fst).map (fun m => getDeg st.outDeg m)).sum
            = edgeCount dep_map := by
          rw [List.map_congr_left houtval]
          rw [List.map_map]
          unfold edgeCount
          congr 1
          apply List.map_congr_left
          intro e he
          simp only [Function.comp_apply]
          rw [alGet_of_mem_nodup dep_map hnd e he]
          rfl
        -- total of the in-degrees over the key list
        have hin0 : ((st.inDeg.map Prod.snd).sum) = edgeCount dep_map := by
          rw [hsum]
          unfold edgeCount
          simp [List.map_map, Function.comp_def]
        have hinsum : ((dep_map.map Prod.fst).map (fun m => getDeg st.inDeg m)).sum
            = edgeCount dep_map := by
          rw [← hinkeys, sum_getDeg_keys st.inDeg (by rw [hinkeys]; exact hnd), hin0]
        have hsumOut : ((List.insertionSort strAsc
            ((st.outDeg.map Prod.fst ++ st.inDeg.map Prod.fst).dedup)).map
              (fun m => getDeg st.outDeg m)).sum = edgeCount dep_map := by
          rw [(hperm.map (fun m => getDeg st.outDeg m)).sum_eq, houtsum]
        have hsumIn : ((List.insertionSort strAsc
            ((st.outDeg.map Prod.fst ++ st.inDeg.map Prod.fst).dedup)).map
              (fun m => getDeg st.inDeg m)).sum = edgeCount dep_map := by
          rw [(hperm.map (fun m => getDeg st.inDeg m)).sum_eq, hinsum]
        refine ⟨?_, ?_, hsumOut, hsumIn, hsumOut⟩
        · intro x hx
          have hx' := List.mem_of_mem_filter hx
          have : x ∈ dep_map.map Prod.fst := (hmemAll x).mp hx'
          exact List.mem_append_left _ this
        · intro x hx
          have hcond := List.of_mem_filter hx
          exact of_decide_eq_true hcond

/-- C6 witness: `dependencies_graph_invariants` applied to `depDemoMap`. -/
theorem dependencies_graph_invariants_witness :
    (∀ x ∈ depDemoRun.1.independent, x ∈ depUniverse depDemoMap) ∧
    (∀ x ∈ depDemoRun.1.independent,
      getDeg depDemoRun.1.outDeg x = 0 ∧ getDeg depDemoRun.1.inDeg x = 0) ∧
    (depDemoRun.1.allModules.map (fun m => getDeg depDemoRun.1.outDeg m)).sum
      = edgeCount depDemoMap ∧
    (depDemoRun.1.allModules.map (fun m => getDeg depDemoRun.1.inDeg m)).sum
      = edgeCount depDemoMap ∧
    depDemoRun.1.totalEdges = edgeCount depDemoMap :=
  dependencies_graph_invariants (fun s => s) depDemoMap 5 2 depDemoRun.1 depDemoRun.2
    (by decide) (by decide)

end AutoDocMind
